import Mathlib

/-!
VeriWeave — a formal model of the result normalizer and report renderer.

Shallow embedding of the two core transformations of the repository
(`src/client/src/App.tsx`): the result normalization performed in
`handleBatchUpload` (lines 265-360) and the paginated PDF layout performed in
`exportToPDF` (lines 377-660).  JavaScript numbers that the code treats as
integers are modelled as `Int`; missing / `undefined` fields are modelled as
`Option`; JS objects are modelled as structures over the fields the code
reads.
-/

namespace VeriWeave

/-- The six fixed category-score keys, each possibly absent, mirroring the
JS object read via `category_scores?.<key>` in `App.tsx`. -/
structure RawCategoryScores where
  multimodal_match : Option Int := none
  document_forensics : Option Int := none
  visual_artifacts : Option Int := none
  logical_consistency : Option Int := none
  synthetic_signs : Option Int := none
  shadow_perspective : Option Int := none
deriving DecidableEq

/-- JS `Object.values` of a category-score object: the values of the keys that
are present, in key order (App.tsx line 344). -/
def RawCategoryScores.values (cs : RawCategoryScores) : List Int :=
  [cs.multimodal_match, cs.document_forensics, cs.visual_artifacts,
   cs.logical_consistency, cs.synthetic_signs, cs.shadow_perspective].filterMap id

/-- One per-file entry of the legacy `results` array (App.tsx lines 274-301). -/
structure RawFileResult where
  authenticity_score : Option Int := none
  reasons : Option (List String) := none
  signals : Option (List String) := none
  verdict : Option String := none
  filename : Option String := none
  category_scores : Option RawCategoryScores := none
deriving DecidableEq

/-- The raw analysis payload (`response.data` in `handleBatchUpload`),
restricted to the fields the normalization code reads or writes. -/
structure RawPayload where
  results : Option (List RawFileResult) := none
  authenticity_score : Option Int := none
  risk_level : Option String := none
  verdict : Option String := none
  reasons : Option (List String) := none
  signals : Option (List String) := none
  category_scores : Option RawCategoryScores := none
  filenames : Option (List String) := none
  filename : Option String := none
  claim : Option String := none
  batch_size : Option Int := none
  analysis_type : Option String := none
deriving DecidableEq

/-- The canonical record produced by the normalization code: the mutated
`batchResult` object as it is passed to `setBatchResults` (App.tsx line 362). -/
structure Finding where
  authenticity_score : Int
  risk_level : String
  verdict : Option String
  reasons : List String
  signals : List String
  category_scores : Option RawCategoryScores
  filenames : List String
  filename : Option String
  claim : Option String
  batch_size : Option Int
  analysis_type : Option String
deriving DecidableEq

/-- JS `Math.round`: nearest integer, halves rounding toward `+∞`. -/
def jsMathRound (q : ℚ) : Int := ⌊q + 1 / 2⌋

/-- JS `Math.round(vals.reduce((sum, v) => sum + v, 0) / vals.length)`, the
averaging used by the legacy-batch merge (App.tsx lines 275, 282-287),
written with integer arithmetic: `⌊x + 1/2⌋ = ⌊(2x + n)/(2n)⌋`, `Int`
division by a positive divisor being floor division.  `legacyAvg_eq_round`
below proves this equal to `jsMathRound` of the arithmetic mean. -/
def legacyAvg (vals : List Int) : Int :=
  (2 * vals.sum + (vals.length : Int)) / (2 * (vals.length : Int))

/-- The score → risk-level mapping
`score >= 70 ? "Low" : score >= 40 ? "Medium" : "High"`
(App.tsx lines 291 and 321). -/
def riskOfScore (s : Int) : String :=
  if 70 ≤ s then "Low" else if 40 ≤ s then "Medium" else "High"

/-- Separator-joined concatenation, JS `Array.join(sep)`. -/
def joinSep (sep : String) : List String → String
  | [] => ""
  | [x] => x
  | x :: y :: xs => x ++ sep ++ joinSep sep (y :: xs)

/-- First-seen deduplication with an accumulator of already-seen elements:
the order-preserving semantics of JS `[...new Set(xs)]`. -/
def dedupFirstAux (seen : List String) : List String → List String
  | [] => []
  | x :: xs =>
    if x ∈ seen then dedupFirstAux seen xs
    else x :: dedupFirstAux (x :: seen) xs

/-- JS `[...new Set(xs)]` (App.tsx line 299): duplicates removed, first
occurrence kept, order preserved. -/
def dedupFirst (xs : List String) : List String := dedupFirstAux [] xs

/-- Concatenation of the per-file lists, JS `results.flatMap(...)`. -/
def flatList (f : RawFileResult → List String) : List RawFileResult → List String
  | [] => []
  | r :: rs => f r ++ flatList f rs

/-- The per-category averaged scores of the legacy merge
(`avgCategoryScores`, App.tsx lines 281-288); a missing per-file map or key
contributes `0` via `r.category_scores?.<key> || 0`. -/
def mergedCats (rs : List RawFileResult) : RawCategoryScores where
  multimodal_match :=
    some (legacyAvg (rs.map fun r => (r.category_scores.bind fun cs => cs.multimodal_match).getD 0))
  document_forensics :=
    some (legacyAvg (rs.map fun r => (r.category_scores.bind fun cs => cs.document_forensics).getD 0))
  visual_artifacts :=
    some (legacyAvg (rs.map fun r => (r.category_scores.bind fun cs => cs.visual_artifacts).getD 0))
  logical_consistency :=
    some (legacyAvg (rs.map fun r => (r.category_scores.bind fun cs => cs.logical_consistency).getD 0))
  synthetic_signs :=
    some (legacyAvg (rs.map fun r => (r.category_scores.bind fun cs => cs.synthetic_signs).getD 0))
  shadow_perspective :=
    some (legacyAvg (rs.map fun r => (r.category_scores.bind fun cs => cs.shadow_perspective).getD 0))

/-- The legacy-batch merge (App.tsx lines 270-307): the unified result built
when the payload carries a non-empty `results` array.  `uploadedNames` is
`files.map(f => f.name)` and `claimArg` the out-of-band claim text. -/
def mergeLegacy (rs : List RawFileResult) (uploadedNames : List String)
    (claimArg : String) : Finding :=
  let avgScore := legacyAvg (rs.map fun r => r.authenticity_score.getD 0)
  let allReasons := flatList (fun r => r.reasons.getD []) rs
  let allSignals := flatList (fun r => r.signals.getD []) rs
  let allFilenames := rs.filterMap fun r => r.filename
  { authenticity_score := avgScore
    risk_level := riskOfScore avgScore
    verdict := some ("Unified analysis of " ++ toString rs.length ++ " file"
      ++ (if rs.length ≠ 1 then "s" else "") ++ ": "
      ++ joinSep " | " (rs.map fun r => r.verdict.getD ""))
    reasons := allReasons.take 7
    signals := (dedupFirst allSignals).take 7
    category_scores := some (mergedCats rs)
    filenames := if allFilenames.isEmpty then uploadedNames else allFilenames
    filename := none
    claim := some claimArg
    batch_size := some rs.length
    analysis_type := some "multimodal_batch_combined" }

/-- The sentinel verdict text (App.tsx line 324). -/
def placeholderVerdict : String :=
  "Analysis completed. Review details for specific findings."

/-- The sentinel reasons entry (App.tsx line 331). -/
def placeholderReason : String :=
  "Multimodal analysis completed across all files."

/-- The sentinel signals entry (App.tsx line 338). -/
def placeholderSignal : String :=
  "Cross-file analysis performed."

/-- The generated verdict sentence of App.tsx line 326. -/
def genVerdict (s : Int) : String :=
  "Unified multimodal analysis completed with " ++ toString s
    ++ "% authenticity score."

/-- The reasons / signals repair of App.tsx lines 330-342: a missing or
empty list, or a singleton equal to the placeholder, goes through the inner
conditional `xs && xs.length > 0 ? xs : [ph]`. -/
def backfillList (xs : Option (List String)) (ph : String) : List String :=
  match xs with
  | none => [ph]
  | some l =>
    if l = [] ∨ l = [ph] then (if l ≠ [] then l else [ph]) else l

/-- Six identical category scores, the broadcast backfill of
App.tsx lines 346-353. -/
def broadcastCats (s : Int) : RawCategoryScores where
  multimodal_match := some s
  document_forensics := some s
  visual_artifacts := some s
  logical_consistency := some s
  synthetic_signs := some s
  shadow_perspective := some s

/-- The unified / single-result path (App.tsx lines 308-360): the sequential
in-place repair of `batchResult`.  Later steps read the already-repaired
score, exactly as the mutation order of the source does. -/
def normalizeUnified (p : RawPayload) (uploadedNames : List String) : Finding :=
  let score := p.authenticity_score.getD 0
  let riskLevel :=
    match p.risk_level with
    | none => riskOfScore score
    | some rl =>
      if rl = "" ∨ (rl = "High" ∧ 39 < score) then riskOfScore score else rl
  let verdict :=
    match p.verdict with
    | none => if 0 < score then some (genVerdict score) else none
    | some v =>
      if (v = "" ∨ v = placeholderVerdict) ∧ 0 < score then some (genVerdict score)
      else some v
  let cats :=
    match p.category_scores with
    | none => some (broadcastCats score)
    | some cs => if cs.values.all (· = 0) then some (broadcastCats score) else some cs
  let filenames :=
    match p.filenames with
    | none => uploadedNames
    | some l => if l = [] then uploadedNames else l
  { authenticity_score := score
    risk_level := riskLevel
    verdict := verdict
    reasons := backfillList p.reasons placeholderReason
    signals := backfillList p.signals placeholderSignal
    category_scores := cats
    filenames := filenames
    filename := p.filename
    claim := p.claim
    batch_size := p.batch_size
    analysis_type := p.analysis_type }

/-- The whole normalization step of `handleBatchUpload` (App.tsx 265-360):
a payload with a non-empty `results` array takes the legacy merge path,
everything else the unified path. -/
def normalize (p : RawPayload) (uploadedNames : List String)
    (claimArg : String) : Finding :=
  match p.results with
  | some (r :: rest) => mergeLegacy (r :: rest) uploadedNames claimArg
  | _ => normalizeUnified p uploadedNames

/-! ## Text utilities of the renderer -/

/-- The risk-vocabulary of `highlightRiskyWords` (App.tsx lines 511-517). -/
def riskyWords : List String :=
  ["fraud", "tampered", "tampering", "inconsistent", "inconsistency", "mismatch",
   "mismatched", "suspicious", "suspicion", "fake", "falsified", "manipulated",
   "manipulation", "altered", "forged", "forgery", "discrepancy", "discrepancies",
   "contradiction", "contradictory", "invalid", "illegitimate", "unauthorized",
   "high risk", "low score", "failed", "failure", "error", "warning", "alert",
   "critical", "danger", "dangerous", "unverified", "unauthentic"]

/-- Maximal runs of whitespace / non-whitespace characters. -/
def charRuns (l : List Char) : List (List Char) :=
  l.foldr
    (fun c acc =>
      match acc with
      | [] => [[c]]
      | run :: rest =>
        match run with
        | [] => [c] :: rest
        | d :: _ =>
          if c.isWhitespace = d.isWhitespace then (c :: run) :: rest
          else [c] :: run :: rest)
    []

/-- JS `text.split(/(\s+)/)`: the pieces between whitespace runs interleaved
with the captured whitespace runs, with an empty piece at either end when the
text starts or ends with whitespace, and `[""]` for the empty string. -/
def splitKeepWhitespace (t : String) : List String :=
  match charRuns t.toList with
  | [] => [""]
  | runs =>
    let strs := runs.map fun r => String.mk r
    let pre :=
      match runs with
      | (c :: _) :: _ => if c.isWhitespace then [""] else []
      | _ => []
    let post :=
      match runs.getLast? with
      | some (c :: _) => if c.isWhitespace then [""] else []
      | _ => []
    pre ++ strs ++ post

/-- JS `/^\s+$/.test(s)`. -/
def isWhitespaceRun (s : String) : Bool :=
  !(s == "") && s.toList.all Char.isWhitespace

/-- ASCII lowering, modelling JS `toLowerCase` on the ASCII range. -/
def strToLower (s : String) : String := String.mk (s.toList.map Char.toLower)

/-- JS `word.toLowerCase()` with every one of `.,!?;:` removed (App.tsx line 523),
as a character list. -/
def cleanWord (w : String) : List Char :=
  (w.toList.map Char.toLower).filter fun c =>
    !(c == '.' || c == ',' || c == '!' || c == '?' || c == ';' || c == ':')

/-- Test `startsWithList l n = true` holds iff `l` begins with `n`. -/
def startsWithList : List Char → List Char → Bool
  | _, [] => true
  | [], _ :: _ => false
  | c :: cs, d :: ds => c == d && startsWithList cs ds

/-- JS `hay.includes(needle)`: substring containment. -/
def containsSub : List Char → List Char → Bool
  | [], needle => needle.isEmpty
  | c :: t, needle => startsWithList (c :: t) needle || containsSub t needle

/-- One run of text with its emphasis flag. -/
structure TextPart where
  text : String
  bold : Bool
deriving DecidableEq

/-- Function `highlightRiskyWords` (App.tsx lines 510-529): split preserving
whitespace, flag a piece bold when its cleaned lowercase form contains some
risky word as a substring. -/
def highlightRiskyWords (text : String) : List TextPart :=
  (splitKeepWhitespace text).map fun w =>
    { text := w
      bold := riskyWords.any fun r => containsSub (cleanWord w) (strToLower r).toList }

/-- One character of `sanitizeTextForPDF` (App.tsx lines 389-411).  All the
replaced patterns are single characters, so the sequential `replace` passes
are equivalent to one character map followed by the non-ASCII → `?` pass;
the two quote replacements on lines 403-404 substitute an ASCII quote by
itself and are no-ops. -/
def sanitizeChar (c : Char) : String :=
  if c = '₹' then "Rs."
  else if c = '€' then "EUR"
  else if c = '£' then "GBP"
  else if c = '¥' then "JPY"
  else if c = '¹' then "Rs."
  else if c = '²' then ""
  else if c = '³' then ""
  else if c = '–' then "-"
  else if c = '—' then "-"
  else if c = '…' then "..."
  else if c.toNat ≤ 127 then String.mk [c]
  else "?"

/-- Function `sanitizeTextForPDF` (App.tsx lines 389-411). -/
def sanitizeTextForPDF (t : String) : String :=
  if t = "" then "" else String.join (t.toList.map sanitizeChar)

/-! ## The layout engine of `exportToPDF` (App.tsx lines 377-660)

`jsPDF` itself is an external library; its text placement is modelled by one
draw instruction per emitted text line, its width measurement by an
arbitrary width function `WidthFn` (bold flag, current font size, text),
and its `splitTextToSize` by the greedy word wrap the spec describes (a
line never splits a word).  Vertical advance inside one multi-line
`pdf.text` call is the per-line advance the code itself accounts with. -/

/-- One drawn text run. -/
structure Instr where
  text : String
  x : Int
  y : Int
  bold : Bool
  centered : Bool
  footerStamp : Bool
deriving DecidableEq

/-- Page geometry: `pageWidth`/`pageHeight` from the jsPDF page, `margin`
and `footerHeight` the constants of App.tsx lines 383-384. -/
structure RConfig where
  pageWidth : Int
  pageHeight : Int
  margin : Int
  footerHeight : Int
deriving DecidableEq

/-- A4 geometry (210×297 mm) with margin 20 and footer reserve 15 as in the code. -/
def a4Config : RConfig := ⟨210, 297, 20, 15⟩

/-- A width-measurement function: bold flag, font size, text ↦ width. -/
abbrev WidthFn := Bool → Int → String → Int

/-- The mutable layout state of `exportToPDF`: completed pages, the page
being written, the cursor `yPos` and the current font size. -/
structure RState where
  prevPages : List (List Instr)
  cur : List Instr
  yPos : Int
  fontSize : Int
deriving DecidableEq

/-- A `pdf.text(...)` call during body layout. -/
def RState.write (st : RState) (t : String) (x y : Int) (bold centered : Bool) :
    RState :=
  { st with cur := st.cur ++ [⟨t, x, y, bold, centered, false⟩] }

/-- The pages of the document, current page last (`pdf.internal.pages`
without its dummy slot 0). -/
def RState.pagesOut (st : RState) : List (List Instr) :=
  st.prevPages ++ [st.cur]

/-- Function `checkPageBreak` (App.tsx lines 414-421): start a new page when the
cursor plus the required space passes `pageHeight - footerHeight`. -/
def checkPageBreak (cfg : RConfig) (req : Int) (st : RState) : RState × Bool :=
  if cfg.pageHeight - cfg.footerHeight < st.yPos + req then
    ({ st with prevPages := st.prevPages ++ [st.cur], cur := [], yPos := cfg.margin },
     true)
  else (st, false)

/-- JS `text.split(' ')`. -/
def splitOnSpace (t : String) : List String :=
  (t.toList.foldr
    (fun c acc =>
      match acc with
      | [] => if c = ' ' then [[], []] else [[c]]
      | cur :: rest => if c = ' ' then [] :: cur :: rest else (c :: cur) :: rest)
    [[]]).map fun l => String.mk l

/-- Greedy fill of the remaining words onto lines starting from `line`. -/
def wrapAux (wf : WidthFn) (fs maxW : Int) : List String → String → List String
  | [], line => [line]
  | w :: ws, line =>
    let cand := line ++ " " ++ w
    if wf false fs cand ≤ maxW then wrapAux wf fs maxW ws cand
    else line :: wrapAux wf fs maxW ws w

/-- Model of `pdf.splitTextToSize(text, maxW)`: greedy word wrap at the current font
size; a line never splits a word. -/
def splitTextToSize (wf : WidthFn) (fs maxW : Int) (text : String) : List String :=
  match splitOnSpace text with
  | [] => []
  | w :: ws => wrapAux wf fs maxW ws w

/-- A multi-line `pdf.text(lines, x, yPos)` call: line `i` is drawn at
`yPos + i * adv`, `adv` being the per-line advance the code accounts for
that block. -/
def drawLinesAux (x adv : Int) : List String → Int → RState → RState
  | [], _, st => st
  | l :: ls, y, st => drawLinesAux x adv ls (y + adv) (st.write l x y false false)

/-- Draw a wrapped block at the cursor without advancing it (the code
advances `yPos` separately). -/
def drawTextLines (st : RState) (lines : List String) (x adv : Int) : RState :=
  drawLinesAux x adv lines st.yPos st

/-- The word-placement loop of `renderTextWithBold` (App.tsx lines 539-560):
place each part at the running x, re-wrapping (with the bold width) when a
non-space part would pass `x + maxWidth - 2`; returns state, final x and
final y. -/
def rtbAux (wf : WidthFn) (fs x maxWidth : Int) :
    List TextPart → RState → Int → Int → RState × Int × Int
  | [], st, cx, cy => (st, cx, cy)
  | part :: rest, st, cx, cy =>
    let isSpace := isWhitespaceRun part.text
    let boldFont := part.bold && !isSpace
    let w := wf boldFont fs part.text
    let cx2 := if x + maxWidth - 2 < cx + w ∧ isSpace = false ∧ x < cx then x else cx
    let cy2 := if x + maxWidth - 2 < cx + w ∧ isSpace = false ∧ x < cx then cy + 7 else cy
    rtbAux wf fs x maxWidth rest (st.write part.text cx2 cy2 boldFont false) (cx2 + w) cy2

/-- Function `renderTextWithBold` (App.tsx lines 532-567): returns the state and
`currentY + lineHeight`. -/
def renderTextWithBold (wf : WidthFn) (text : String) (x y maxWidth : Int)
    (st : RState) : RState × Int :=
  let r := rtbAux wf st.fontSize x maxWidth (highlightRiskyWords text) st x y
  (r.1, r.2.2 + 7)

/-- The `lines.forEach(line => startY = renderTextWithBold(line, ...))`
pattern of the reasons / signals loops. -/
def rwlAux (wf : WidthFn) (x maxWidth : Int) :
    List String → RState → Int → RState × Int
  | [], st, y => (st, y)
  | l :: ls, st, y =>
    let r := renderTextWithBold wf l x y maxWidth st
    rwlAux wf x maxWidth ls r.1 r.2

/-- The `(continued)` marker emitted at the top of a fresh page when a
mid-list page break occurred (App.tsx lines 583-591 and 617-624): font size
9 for the marker, cursor advanced by 5, font size restored to 11. -/
def continuedMarker (cfg : RConfig) (cb : RState × Bool) : RState :=
  if cb.2 then
    let sA : RState := { cb.1 with fontSize := 9 }
    let sB := sA.write "(continued)" cfg.margin sA.yPos false false
    { sB with yPos := sB.yPos + 5, fontSize := 11 }
  else cb.1

/-- One iteration of the reasons loop (App.tsx lines 578-600). -/
def renderReason (wf : WidthFn) (cfg : RConfig) (mcw : Int) (st : RState)
    (idx : Nat) (reason : String) : RState :=
  let reasonText := toString (idx + 1) ++ ". " ++ sanitizeTextForPDF reason
  let lines := splitTextToSize wf st.fontSize (mcw - 5) reasonText
  let required := (lines.length : Int) * 7 + 4
  let st2 := continuedMarker cfg (checkPageBreak cfg required st)
  let r := rwlAux wf (cfg.margin + 5) (mcw - 5) lines st2 st2.yPos
  { r.1 with yPos := r.2 + 2 }

/-- The reasons loop with its running index. -/
def renderReasonsAux (wf : WidthFn) (cfg : RConfig) (mcw : Int) :
    Nat → List String → RState → RState
  | _, [], st => st
  | i, r :: rs, st => renderReasonsAux wf cfg mcw (i + 1) rs (renderReason wf cfg mcw st i r)

/-- One iteration of the signals loop (App.tsx lines 612-633). -/
def renderSignal (wf : WidthFn) (cfg : RConfig) (mcw : Int) (st : RState)
    (signal : String) : RState :=
  let signalText := "• " ++ sanitizeTextForPDF signal
  let lines := splitTextToSize wf st.fontSize (mcw - 5) signalText
  let required := (lines.length : Int) * 7
  let st2 := continuedMarker cfg (checkPageBreak cfg required st)
  let r := rwlAux wf (cfg.margin + 5) (mcw - 5) lines st2 st2.yPos
  { r.1 with yPos := r.2 + 2 }

/-- The signals loop. -/
def renderSignalsAux (wf : WidthFn) (cfg : RConfig) (mcw : Int) :
    List String → RState → RState
  | [], st => st
  | s :: ss, st => renderSignalsAux wf cfg mcw ss (renderSignal wf cfg mcw st s)

/-- Title block (App.tsx lines 423-428). -/
def stepTitle (cfg : RConfig) (wf : WidthFn) (st : RState) : RState :=
  let st1 : RState := { st with fontSize := 20 }
  let titleLines :=
    splitTextToSize wf 20 (cfg.pageWidth - 2 * cfg.margin)
      "VeriWeave Forensic Analysis Report"
  let st2 := drawTextLines st1 titleLines cfg.margin 8
  { st2 with yPos := st2.yPos + (titleLines.length : Int) * 8 + 5 }

/-- Timestamp line (App.tsx lines 430-434); `now` is the formatted
`new Date().toLocaleString()`. -/
def stepTimestamp (cfg : RConfig) (now : String) (st : RState) : RState :=
  let st1 : RState := { st with fontSize := 10 }
  let st2 := st1.write ("Generated: " ++ now) cfg.margin st1.yPos false false
  { st2 with yPos := st2.yPos + 10 }

/-- The displayed file-name text (App.tsx lines 440-452). -/
def filenameDisplay (f : Finding) : String :=
  if f.filenames ≠ [] then
    if f.filenames.length = 1 then f.filenames.headD ""
    else toString f.filenames.length ++ " files: " ++ joinSep ", " f.filenames
  else
    match f.filename with
    | some fn => fn
    | none => "Unknown"

/-- File list and claim blocks (App.tsx lines 436-460): written without any
page-break check. -/
def stepFileClaim (cfg : RConfig) (wf : WidthFn) (f : Finding) (st : RState) :
    RState :=
  let mcw := cfg.pageWidth - 2 * cfg.margin
  let st1 : RState := { st with fontSize := 12 }
  let filenameText :=
    "File" ++ (if 1 < f.filenames.length then "s" else "") ++ ": "
      ++ sanitizeTextForPDF (filenameDisplay f)
  let filenameLines := splitTextToSize wf 12 mcw filenameText
  let st2 := drawTextLines st1 filenameLines cfg.margin 6
  let st3 : RState := { st2 with yPos := st2.yPos + (filenameLines.length : Int) * 6 + 5 }
  let claimText :=
    "Claim: " ++ sanitizeTextForPDF
      (match f.claim with
       | some c => if c = "" then "No claim provided" else c
       | none => "No claim provided")
  let claimLines := splitTextToSize wf 12 mcw claimText
  let st4 := drawTextLines st3 claimLines cfg.margin 6
  { st4 with yPos := st4.yPos + (claimLines.length : Int) * 6 + 5 }

/-- Score and risk-level block (App.tsx lines 462-471). -/
def stepScore (cfg : RConfig) (f : Finding) (st : RState) : RState :=
  let st1 := (checkPageBreak cfg 15 st).1
  let st2 : RState := { st1 with fontSize := 16 }
  let st3 := st2.write ("Authenticity Score: " ++ toString f.authenticity_score ++ "%")
    cfg.margin st2.yPos false false
  let st4 : RState := { st3 with yPos := st3.yPos + 10, fontSize := 12 }
  let st5 := st4.write ("Risk Level: " ++ f.risk_level) cfg.margin st4.yPos false false
  { st5 with yPos := st5.yPos + 10 }

/-- Verdict block (App.tsx lines 473-480). -/
def stepVerdict (cfg : RConfig) (wf : WidthFn) (f : Finding) (st : RState) :
    RState :=
  let st1 := (checkPageBreak cfg 20 st).1
  let st2 : RState := { st1 with fontSize := 12 }
  let verdictText := "Verdict: " ++ sanitizeTextForPDF (f.verdict.getD "")
  let verdictLines := splitTextToSize wf 12 (cfg.pageWidth - 2 * cfg.margin) verdictText
  let st3 := drawTextLines st2 verdictLines cfg.margin 7
  { st3 with yPos := st3.yPos + (verdictLines.length : Int) * 7 + 8 }

/-- The six category lines (App.tsx lines 492-505). -/
def catPairs (cs : RawCategoryScores) : List (String × Int) :=
  [("Multimodal Match", cs.multimodal_match.getD 0),
   ("Document Forensics", cs.document_forensics.getD 0),
   ("Visual Artifacts", cs.visual_artifacts.getD 0),
   ("Logical Consistency", cs.logical_consistency.getD 0),
   ("Synthetic Signs", cs.synthetic_signs.getD 0),
   ("Shadow & Perspective", cs.shadow_perspective.getD 0)]

/-- The `categories.forEach` loop writer. -/
def writeCatLines (m : Int) : List (String × Int) → RState → RState
  | [], st => st
  | p :: ps, st =>
    let st2 := st.write (p.1 ++ ": " ++ toString p.2 ++ "%") (m + 5) st.yPos false false
    writeCatLines m ps { st2 with yPos := st2.yPos + 6 }

/-- Category-score block (App.tsx lines 482-507). -/
def stepCats (cfg : RConfig) (f : Finding) (st : RState) : RState :=
  match f.category_scores with
  | none => st
  | some cs =>
    let st1 := (checkPageBreak cfg 50 st).1
    let st2 : RState := { st1 with fontSize := 14 }
    let st3 := st2.write "Confidence Breakdown:" cfg.margin st2.yPos false false
    let st4 : RState := { st3 with yPos := st3.yPos + 8, fontSize := 10 }
    let st5 := writeCatLines cfg.margin (catPairs cs) st4
    { st5 with yPos := st5.yPos + 5 }

/-- Reasons section (App.tsx lines 569-601). -/
def stepReasons (cfg : RConfig) (wf : WidthFn) (f : Finding) (st : RState) :
    RState :=
  let st1 := (checkPageBreak cfg 20 st).1
  let st2 : RState := { st1 with fontSize := 16 }
  let st3 := st2.write "Analysis Reasons:" cfg.margin st2.yPos false false
  let st4 : RState := { st3 with yPos := st3.yPos + 10, fontSize := 11 }
  let st5 := renderReasonsAux wf cfg (cfg.pageWidth - 2 * cfg.margin) 0 f.reasons st4
  { st5 with yPos := st5.yPos + 5 }

/-- Signals section (App.tsx lines 603-633). -/
def stepSignals (cfg : RConfig) (wf : WidthFn) (f : Finding) (st : RState) :
    RState :=
  let st1 := (checkPageBreak cfg 20 st).1
  let st2 : RState := { st1 with fontSize := 16 }
  let st3 := st2.write "Technical Signals:" cfg.margin st2.yPos false false
  let st4 : RState := { st3 with yPos := st3.yPos + 10, fontSize := 11 }
  renderSignalsAux wf cfg (cfg.pageWidth - 2 * cfg.margin) f.signals st4

/-- The whole body layout of `exportToPDF`, before footer stamping. -/
def layoutBody (cfg : RConfig) (f : Finding) (wf : WidthFn) (now : String) :
    RState :=
  let st0 : RState := ⟨[], [], cfg.margin, 16⟩
  stepSignals cfg wf f
    (stepReasons cfg wf f
      (stepCats cfg f
        (stepVerdict cfg wf f
          (stepScore cfg f
            (stepFileClaim cfg wf f
              (stepTimestamp cfg now
                (stepTitle cfg wf st0)))))))

/-- The footer string of App.tsx line 641. -/
def footerText : String :=
  "VeriWeave - AI-Powered Forensic Analysis | Powered by Gemini 3"

/-- The footer stamp placed on every page (App.tsx lines 637-645): centered
at half the page width, 8 units above the bottom edge. -/
def footerInstr (cfg : RConfig) : Instr :=
  ⟨footerText, cfg.pageWidth / 2, cfg.pageHeight - 8, false, true, true⟩

/-- The layout result of `exportToPDF`: body layout, then the final pass stamping
one footer on each of the `pdf.internal.pages.length - 1` produced pages
(App.tsx lines 635-645). -/
def renderReport (cfg : RConfig) (f : Finding) (wf : WidthFn) (now : String) :
    List (List Instr) :=
  (layoutBody cfg f wf now).pagesOut.map fun pg => pg ++ [footerInstr cfg]

/-! ## Helper lemmas -/

lemma normalize_legacy (p : RawPayload) (rs : List RawFileResult)
    (names : List String) (c : String) (h : p.results = some rs) (hne : rs ≠ []) :
    normalize p names c = mergeLegacy rs names c := by
  obtain ⟨r, rest, rfl⟩ := List.exists_cons_of_ne_nil hne
  simp [normalize, h]

lemma normalize_unified (p : RawPayload) (names : List String) (c : String)
    (h : p.results = none) : normalize p names c = normalizeUnified p names := by
  simp [normalize, h]

lemma nu_score (p : RawPayload) (names : List String) :
    (normalizeUnified p names).authenticity_score = p.authenticity_score.getD 0 := rfl

lemma nu_risk (p : RawPayload) (names : List String) :
    (normalizeUnified p names).risk_level =
      match p.risk_level with
      | none => riskOfScore (p.authenticity_score.getD 0)
      | some rl =>
        if rl = "" ∨ (rl = "High" ∧ 39 < p.authenticity_score.getD 0)
        then riskOfScore (p.authenticity_score.getD 0) else rl := rfl

lemma nu_verdict (p : RawPayload) (names : List String) :
    (normalizeUnified p names).verdict =
      match p.verdict with
      | none =>
        if 0 < p.authenticity_score.getD 0
        then some (genVerdict (p.authenticity_score.getD 0)) else none
      | some v =>
        if (v = "" ∨ v = placeholderVerdict) ∧ 0 < p.authenticity_score.getD 0
        then some (genVerdict (p.authenticity_score.getD 0)) else some v := rfl

lemma nu_cats (p : RawPayload) (names : List String) :
    (normalizeUnified p names).category_scores =
      match p.category_scores with
      | none => some (broadcastCats (p.authenticity_score.getD 0))
      | some cs =>
        if cs.values.all (· = 0)
        then some (broadcastCats (p.authenticity_score.getD 0)) else some cs := rfl

/-- Value `jsMathRound q` is within a half of `q`, and at most `q + 1/2`: the
nearest integer with ties rounding up. -/
lemma jsMathRound_bounds (q : ℚ) :
    q - 1 / 2 < (jsMathRound q : ℚ) ∧ (jsMathRound q : ℚ) ≤ q + 1 / 2 := by
  unfold jsMathRound
  constructor
  · have h := Int.lt_floor_add_one (q + 1 / 2)
    push_cast at h ⊢
    linarith
  · exact Int.floor_le (q + 1 / 2)

/-- The integer-division form of the merge average equals `Math.round` of
the arithmetic mean. -/
lemma legacyAvg_eq_round (vals : List Int) (h : vals ≠ []) :
    legacyAvg vals = jsMathRound ((vals.sum : ℚ) / (vals.length : ℚ)) := by
  have hl : 0 < vals.length := List.length_pos.mpr h
  have hq : ((vals.length : ℚ)) ≠ 0 := by
    exact_mod_cast Nat.pos_iff_ne_zero.mp hl
  have key := Rat.floor_intCast_div_natCast
    (2 * vals.sum + vals.length) (2 * vals.length)
  unfold legacyAvg jsMathRound
  rw [show (vals.sum : ℚ) / (vals.length : ℚ) + 1 / 2
        = (((2 * vals.sum + (vals.length : Int) : Int) : ℚ)
            / ((2 * vals.length : ℕ) : ℚ)) by
      push_cast
      field_simp
      ring]
  rw [key]
  push_cast
  rfl

/-- Predicate: `v` is the mean of `vals` rounded to the nearest integer, ties up. -/
def isRoundedMeanOf (v : Int) (vals : List Int) : Prop :=
  ((vals.sum : ℚ) / (vals.length : ℚ) - 1 / 2 < (v : ℚ))
  ∧ ((v : ℚ) ≤ (vals.sum : ℚ) / (vals.length : ℚ) + 1 / 2)

lemma legacyAvg_isRoundedMean (vals : List Int) (h : vals ≠ []) :
    isRoundedMeanOf (legacyAvg vals) vals := by
  rw [isRoundedMeanOf, legacyAvg_eq_round vals h]
  exact jsMathRound_bounds _

lemma dedupFirstAux_sublist (l : List String) :
    ∀ seen, (dedupFirstAux seen l).Sublist l := by
  induction l with
  | nil => intro seen; simp [dedupFirstAux]
  | cons x xs ih =>
    intro seen
    unfold dedupFirstAux
    split
    · exact (ih seen).trans (List.sublist_cons_self x xs)
    · exact (ih (x :: seen)).cons₂ x

lemma not_mem_seen_of_mem_dedupFirstAux (l : List String) :
    ∀ seen x, x ∈ dedupFirstAux seen l → x ∉ seen := by
  induction l with
  | nil => intro seen x hx; simp [dedupFirstAux] at hx
  | cons y ys ih =>
    intro seen x hx
    unfold dedupFirstAux at hx
    split at hx
    · exact ih seen x hx
    · rcases List.mem_cons.mp hx with h | h
      · subst h; assumption
      · intro hs
        exact ih (y :: seen) x h (List.mem_cons_of_mem y hs)

lemma nodup_dedupFirstAux (l : List String) :
    ∀ seen, (dedupFirstAux seen l).Nodup := by
  induction l with
  | nil => intro seen; simp [dedupFirstAux]
  | cons y ys ih =>
    intro seen
    unfold dedupFirstAux
    split
    · exact ih seen
    · refine List.Nodup.cons ?_ (ih (y :: seen))
      intro hy
      exact not_mem_seen_of_mem_dedupFirstAux ys (y :: seen) y hy (List.mem_cons_self y seen)

lemma nodup_dedupFirst (l : List String) : (dedupFirst l).Nodup :=
  nodup_dedupFirstAux l []

lemma dedupFirst_sublist (l : List String) : (dedupFirst l).Sublist l :=
  dedupFirstAux_sublist l []

/-! ## C1: the risk-level mapping -/

def pLow10 : RawPayload := { authenticity_score := some 10, risk_level := some "Low" }

/-- C1 as stated is false: a supplied riskLevel that contradicts the
mapping is trusted — a payload with score 10 and riskLevel "Low" keeps
"Low", although the mapping demands "High". -/
theorem c1_counterexample :
    (normalize pLow10 [] "").authenticity_score = 10
    ∧ (normalize pLow10 [] "").risk_level = "Low"
    ∧ riskOfScore 10 = "High" := by decide

/-- C1 amended: the legacy merge path always derives riskLevel from the
merged score via the mapping, but the unified path recomputes a supplied
riskLevel only when it is absent or empty, or when it is "High" while the
score exceeds 39; any other supplied value — even one contradicting the
mapping — is kept. -/
theorem c1_risk_rule :
    (∀ (p : RawPayload) (rs : List RawFileResult) (names : List String) (c : String),
        p.results = some rs → rs ≠ [] →
        (normalize p names c).risk_level
          = riskOfScore (normalize p names c).authenticity_score)
    ∧ (∀ (p : RawPayload) (names : List String) (c : String),
        p.results = none →
        (p.risk_level = none ∨ p.risk_level = some ""
          ∨ (p.risk_level = some "High" ∧ 39 < p.authenticity_score.getD 0)) →
        (normalize p names c).risk_level = riskOfScore (p.authenticity_score.getD 0))
    ∧ (∀ (p : RawPayload) (names : List String) (c : String) (rl : String),
        p.results = none → p.risk_level = some rl → rl ≠ ""
          → (rl = "High" → p.authenticity_score.getD 0 ≤ 39)
          → (normalize p names c).risk_level = rl) := by
  refine ⟨?_, ?_, ?_⟩
  · intro p rs names c h hne
    rw [normalize_legacy p rs names c h hne]
    rfl
  · intro p names c h hcond
    rw [normalize_unified p names c h, nu_risk]
    rcases hcond with h1 | h1 | ⟨h1, h2⟩
    · rw [h1]
    · rw [h1]
      simp
    · rw [h1]
      show (if ("High" : String) = "" ∨ ("High" : String) = "High"
              ∧ 39 < p.authenticity_score.getD 0
            then riskOfScore (p.authenticity_score.getD 0) else "High")
          = riskOfScore (p.authenticity_score.getD 0)
      rw [if_pos]
      right
      exact ⟨rfl, h2⟩
  · intro p names c rl h hr hne hhigh
    rw [normalize_unified p names c h, nu_risk, hr]
    show (if rl = "" ∨ rl = "High" ∧ 39 < p.authenticity_score.getD 0
          then riskOfScore (p.authenticity_score.getD 0) else rl) = rl
    rw [if_neg]
    rintro (h1 | ⟨h1, h2⟩)
    · exact hne h1
    · exact absurd h2 (not_lt.mpr (hhigh h1))

def pLeg80 : RawPayload := { results := some [{ authenticity_score := some 80 }] }

theorem c1_risk_rule_witness :
    (normalize pLeg80 [] "").risk_level
      = riskOfScore (normalize pLeg80 [] "").authenticity_score :=
  c1_risk_rule.1 pLeg80 [{ authenticity_score := some 80 }] [] "" rfl (by decide)

/-! ## C2: score clamping -/

def p150 : RawPayload := { authenticity_score := some 150 }

/-- C2 as stated is false: a supplied score of 150 is kept verbatim — no
clamping to [0,100] happens anywhere in the normalization. -/
theorem c2_counterexample :
    (normalize p150 [] "").authenticity_score = 150
    ∧ ¬ ((normalize p150 [] "").authenticity_score ≤ 100) := by decide

/-- C2 amended: in the unified path the score is the supplied numeric value
unchanged (backfilled to 0 only when absent); it is never clamped to
[0,100]. -/
theorem c2_score_rule :
    ∀ (p : RawPayload) (names : List String) (c : String),
      p.results = none →
      (normalize p names c).authenticity_score = p.authenticity_score.getD 0 := by
  intro p names c h
  rw [normalize_unified p names c h, nu_score]

theorem c2_score_rule_witness :
    (normalize p150 [] "").authenticity_score = p150.authenticity_score.getD 0 :=
  c2_score_rule p150 [] "" rfl

/-! ## C3: legacy merge averaging -/

def rs959085 : List RawFileResult :=
  [{ authenticity_score := some 95 }, { authenticity_score := some 90 },
   { authenticity_score := some 85 }]

def p959085 : RawPayload := { results := some rs959085 }

/-- C3: in the legacy merge path the top-level score and each of the six
category scores are the arithmetic mean of the per-file values
(`Math.round`, i.e. nearest integer with ties rounding up — the
`isRoundedMeanOf` bounds), riskLevel is derived from the merged score, and
the concrete instance 95, 90, 85 merges to 90 with riskLevel Low. -/
theorem c3_legacy_mean :
    (∀ (p : RawPayload) (rs : List RawFileResult) (names : List String) (c : String),
        p.results = some rs → rs ≠ [] →
        ((normalize p names c).authenticity_score
            = legacyAvg (rs.map fun r => r.authenticity_score.getD 0)
         ∧ isRoundedMeanOf (normalize p names c).authenticity_score
             (rs.map fun r => r.authenticity_score.getD 0)
         ∧ (normalize p names c).category_scores = some (mergedCats rs)
         ∧ isRoundedMeanOf ((mergedCats rs).multimodal_match.getD 0)
             (rs.map fun r => (r.category_scores.bind fun cs => cs.multimodal_match).getD 0)
         ∧ isRoundedMeanOf ((mergedCats rs).document_forensics.getD 0)
             (rs.map fun r => (r.category_scores.bind fun cs => cs.document_forensics).getD 0)
         ∧ isRoundedMeanOf ((mergedCats rs).visual_artifacts.getD 0)
             (rs.map fun r => (r.category_scores.bind fun cs => cs.visual_artifacts).getD 0)
         ∧ isRoundedMeanOf ((mergedCats rs).logical_consistency.getD 0)
             (rs.map fun r => (r.category_scores.bind fun cs => cs.logical_consistency).getD 0)
         ∧ isRoundedMeanOf ((mergedCats rs).synthetic_signs.getD 0)
             (rs.map fun r => (r.category_scores.bind fun cs => cs.synthetic_signs).getD 0)
         ∧ isRoundedMeanOf ((mergedCats rs).shadow_perspective.getD 0)
             (rs.map fun r => (r.category_scores.bind fun cs => cs.shadow_perspective).getD 0)
         ∧ (normalize p names c).risk_level
             = riskOfScore (normalize p names c).authenticity_score))
    ∧ ((normalize p959085 [] "").authenticity_score = 90
       ∧ (normalize p959085 [] "").risk_level = "Low") := by
  constructor
  · intro p rs names c h hne
    have hm : ∀ g : RawFileResult → Int, rs.map g ≠ [] := by
      intro g hmap
      exact hne (List.map_eq_nil_iff.mp hmap)
    rw [normalize_legacy p rs names c h hne]
    refine ⟨rfl, ?_, rfl, ?_, ?_, ?_, ?_, ?_, ?_, rfl⟩
    · exact legacyAvg_isRoundedMean _ (hm _)
    · exact legacyAvg_isRoundedMean _ (hm _)
    · exact legacyAvg_isRoundedMean _ (hm _)
    · exact legacyAvg_isRoundedMean _ (hm _)
    · exact legacyAvg_isRoundedMean _ (hm _)
    · exact legacyAvg_isRoundedMean _ (hm _)
    · exact legacyAvg_isRoundedMean _ (hm _)
  · exact (by decide : (normalize p959085 [] "").authenticity_score = 90
      ∧ (normalize p959085 [] "").risk_level = "Low")

theorem c3_legacy_mean_witness :
    (normalize p959085 [] "").authenticity_score
      = legacyAvg (rs959085.map fun r => r.authenticity_score.getD 0) :=
  (c3_legacy_mean.1 p959085 rs959085 [] "" rfl (by decide)).1

/-! ## C4: category-score backfill -/

def pLeg90 : RawPayload := { results := some [{ authenticity_score := some 90 }] }

/-- C4 as stated is false: in the legacy merge path a payload whose
(top-level) categoryScores are absent gets the per-file averages — here all
zero — rather than a broadcast of the merged score 90. -/
theorem c4_counterexample :
    pLeg90.category_scores = none
    ∧ (normalize pLeg90 [] "").authenticity_score = 90
    ∧ ((normalize pLeg90 [] "").category_scores.bind fun cs => cs.multimodal_match)
        = some 0 := by decide

def p62 : RawPayload := { authenticity_score := some 62 }

/-- C4 amended: in the unified path (no results array) absent or all-zero
categoryScores are backfilled by broadcasting the score into every one of
the six keys; in particular score 62 with no categoryScores yields all six
keys equal to 62.  The legacy merge path instead always stores the per-file
averages. -/
theorem c4_category_backfill :
    (∀ (p : RawPayload) (names : List String) (c : String),
        p.results = none →
        (∀ cs, p.category_scores = some cs → cs.values.all (· = 0) = true) →
        (normalize p names c).category_scores
          = some (broadcastCats (p.authenticity_score.getD 0)))
    ∧ (normalize p62 [] "").category_scores = some (broadcastCats 62) := by
  constructor
  · intro p names c h hz
    rw [normalize_unified p names c h, nu_cats]
    cases hcs : p.category_scores with
    | none => rfl
    | some cs =>
      show (if cs.values.all (· = 0)
            then some (broadcastCats (p.authenticity_score.getD 0)) else some cs)
          = some (broadcastCats (p.authenticity_score.getD 0))
      rw [if_pos (hz cs hcs)]
  · decide

theorem c4_category_backfill_witness :
    (normalize p62 [] "").category_scores
      = some (broadcastCats (p62.authenticity_score.getD 0)) :=
  c4_category_backfill.1 p62 [] "" rfl (fun _cs hcs => nomatch hcs)

/-! ## C5: verdict backfill -/

def p0 : RawPayload := { authenticity_score := some 0 }

/-- C5 as stated is false: a payload with score 0 and no verdict normalizes
to a Finding with no verdict at all — the generated sentence is only
substituted when the score is positive. -/
theorem c5_counterexample : (normalize p0 [] "").verdict = none := by decide

/-- C5 amended: in the unified path, when the score is positive an absent,
empty or placeholder verdict is replaced by the generated sentence
referencing the score (anything else is kept); when the score is ≤ 0 the
supplied verdict — even absent or placeholder — is left unchanged. -/
theorem c5_verdict_rule :
    ∀ (p : RawPayload) (names : List String) (c : String),
      p.results = none →
      ((p.authenticity_score.getD 0 ≤ 0 → (normalize p names c).verdict = p.verdict)
       ∧ (0 < p.authenticity_score.getD 0 →
           (normalize p names c).verdict =
             if p.verdict = none ∨ p.verdict = some "" ∨ p.verdict = some placeholderVerdict
             then some (genVerdict (p.authenticity_score.getD 0))
             else p.verdict)) := by
  intro p names c h
  rw [normalize_unified p names c h]
  constructor
  · intro hle
    rw [nu_verdict]
    cases hv : p.verdict with
    | none =>
      show (if 0 < p.authenticity_score.getD 0
            then some (genVerdict (p.authenticity_score.getD 0)) else none) = none
      rw [if_neg (not_lt.mpr hle)]
    | some v =>
      show (if (v = "" ∨ v = placeholderVerdict) ∧ 0 < p.authenticity_score.getD 0
            then some (genVerdict (p.authenticity_score.getD 0)) else some v) = some v
      rw [if_neg]
      rintro ⟨-, hpos⟩
      exact absurd hpos (not_lt.mpr hle)
  · intro hpos
    rw [nu_verdict]
    cases hv : p.verdict with
    | none =>
      rw [if_pos (Or.inl rfl)]
      show (if 0 < p.authenticity_score.getD 0
            then some (genVerdict (p.authenticity_score.getD 0)) else none)
          = some (genVerdict (p.authenticity_score.getD 0))
      rw [if_pos hpos]
    | some v =>
      show (if (v = "" ∨ v = placeholderVerdict) ∧ 0 < p.authenticity_score.getD 0
            then some (genVerdict (p.authenticity_score.getD 0)) else some v)
          = if some v = none ∨ some v = some "" ∨ some v = some placeholderVerdict
            then some (genVerdict (p.authenticity_score.getD 0)) else some v
      rcases Decidable.em (v = "" ∨ v = placeholderVerdict) with hd | hd
      · rw [if_pos ⟨hd, hpos⟩, if_pos]
        rcases hd with hd | hd
        · exact Or.inr (Or.inl (by rw [hd]))
        · exact Or.inr (Or.inr (by rw [hd]))
      · rw [if_neg, if_neg]
        · rintro (hc | hc | hc)
          · exact Option.noConfusion hc
          · exact hd (Or.inl (Option.some.inj hc))
          · exact hd (Or.inr (Option.some.inj hc))
        · rintro ⟨hc, -⟩
          exact hd hc

theorem c5_verdict_rule_witness :
    (normalize p62 [] "").verdict =
      if p62.verdict = none ∨ p62.verdict = some "" ∨ p62.verdict = some placeholderVerdict
      then some (genVerdict (p62.authenticity_score.getD 0))
      else p62.verdict :=
  (c5_verdict_rule p62 [] "" rfl).2 (by decide)

/-! ## C6: legacy merge of reasons and signals -/

/-- C6: in the legacy merge path, reasons are the file-order concatenation
truncated to 7 and signals the first-occurrence deduplication truncated to
7 — hence both lists have length ≤ 7, keep the original order (sublists of
the concatenations) and the merged signals carry no duplicate. -/
theorem c6_merge_lists :
    ∀ (p : RawPayload) (rs : List RawFileResult) (names : List String) (c : String),
      p.results = some rs → rs ≠ [] →
      ((normalize p names c).reasons = (flatList (fun r => r.reasons.getD []) rs).take 7
       ∧ (normalize p names c).signals
           = (dedupFirst (flatList (fun r => r.signals.getD []) rs)).take 7
       ∧ (normalize p names c).reasons.Sublist (flatList (fun r => r.reasons.getD []) rs)
       ∧ (normalize p names c).signals.Sublist (flatList (fun r => r.signals.getD []) rs)
       ∧ (normalize p names c).signals.Nodup
       ∧ (normalize p names c).reasons.length ≤ 7
       ∧ (normalize p names c).signals.length ≤ 7) := by
  intro p rs names c h hne
  rw [normalize_legacy p rs names c h hne]
  refine ⟨rfl, rfl, ?_, ?_, ?_, ?_, ?_⟩
  · exact List.take_sublist 7 _
  · exact (List.take_sublist 7 _).trans (dedupFirst_sublist _)
  · exact (nodup_dedupFirst _).sublist (List.take_sublist 7 _)
  · exact List.length_take_le 7 _
  · exact List.length_take_le 7 _

def rsDup : List RawFileResult :=
  [{ reasons := some ["a"], signals := some ["x", "y"] },
   { reasons := some ["b"], signals := some ["x", "z"] }]

def pDup : RawPayload := { results := some rsDup }

theorem c6_merge_lists_witness :
    (normalize pDup [] "").signals
      = (dedupFirst (flatList (fun r => r.signals.getD []) rsDup)).take 7 :=
  (c6_merge_lists pDup rsDup [] "" rfl (by decide)).2.1

/-! ## C8: error handling of the normalizer -/

def pPh : RawPayload :=
  { authenticity_score := some 0, verdict := some placeholderVerdict }

/-- C8 as stated is false on the repair side: a structured payload carrying
the known placeholder verdict together with score 0 is returned with the
placeholder verdict intact — the field is not repaired (and the code has no
`MalformedPayloadError` at all; transport failures are caught by the
enclosing handler). -/
theorem c8_counterexample :
    (normalize pPh [] "").verdict = some placeholderVerdict := by decide

lemma backfillList_ne_nil (xs : Option (List String)) (ph : String) :
    backfillList xs ph ≠ [] := by
  cases xs with
  | none => exact List.cons_ne_nil ph []
  | some l =>
    show (if l = [] ∨ l = [ph] then (if l ≠ [] then l else [ph]) else l) ≠ []
    split
    · split
      · assumption
      · exact List.cons_ne_nil ph []
    · rename_i hcond
      intro hl
      exact hcond (Or.inl hl)

lemma genVerdict_ne_empty (s : Int) : genVerdict s ≠ "" := by
  intro h
  have hlen := congrArg String.length h
  rw [genVerdict, String.length_append, String.length_append] at hlen
  have h1 : (("" : String)).length = 0 := rfl
  have h2 : 0 < ("Unified multimodal analysis completed with " : String).length := by
    decide
  rw [h1] at hlen
  omega

/-- C8 amended: the normalizer never raises on structured payloads.  In the
unified path reasons, signals and categoryScores are always repaired to
non-empty / present values and, whenever the score is positive, the verdict
is a non-empty string; in the legacy path verdict and categoryScores are
always present.  A missing or placeholder verdict with score ≤ 0 is the one
field left unrepaired (see the counterexample), and no
`MalformedPayloadError` exists in the code. -/
theorem c8_backfill_total :
    ∀ (p : RawPayload) (names : List String) (c : String),
      ((p.results = none →
          ((normalize p names c).reasons ≠ []
           ∧ (normalize p names c).signals ≠ []
           ∧ (normalize p names c).category_scores.isSome = true
           ∧ (0 < (normalize p names c).authenticity_score →
               ∃ v, (normalize p names c).verdict = some v ∧ v ≠ "")))
       ∧ (∀ rs, p.results = some rs → rs ≠ [] →
            ((normalize p names c).verdict.isSome = true
             ∧ (normalize p names c).category_scores.isSome = true))) := by
  intro p names c
  constructor
  · intro h
    rw [normalize_unified p names c h]
    refine ⟨backfillList_ne_nil _ _, backfillList_ne_nil _ _, ?_, ?_⟩
    · rw [nu_cats]
      cases p.category_scores with
      | none => rfl
      | some cs =>
        show (if cs.values.all (· = 0)
              then some (broadcastCats (p.authenticity_score.getD 0))
              else some cs).isSome = true
        split <;> rfl
    · rw [nu_score, nu_verdict]
      intro hpos
      cases hv : p.verdict with
      | none =>
        refine ⟨genVerdict (p.authenticity_score.getD 0), ?_, genVerdict_ne_empty _⟩
        show (if 0 < p.authenticity_score.getD 0
              then some (genVerdict (p.authenticity_score.getD 0)) else none)
            = some (genVerdict (p.authenticity_score.getD 0))
        rw [if_pos hpos]
      | some v =>
        rcases Decidable.em (v = "" ∨ v = placeholderVerdict) with hd | hd
        · refine ⟨genVerdict (p.authenticity_score.getD 0), ?_, genVerdict_ne_empty _⟩
          show (if (v = "" ∨ v = placeholderVerdict) ∧ 0 < p.authenticity_score.getD 0
                then some (genVerdict (p.authenticity_score.getD 0)) else some v)
              = some (genVerdict (p.authenticity_score.getD 0))
          rw [if_pos ⟨hd, hpos⟩]
        · refine ⟨v, ?_, fun hv0 => hd (Or.inl hv0)⟩
          show (if (v = "" ∨ v = placeholderVerdict) ∧ 0 < p.authenticity_score.getD 0
                then some (genVerdict (p.authenticity_score.getD 0)) else some v)
              = some v
          rw [if_neg]
          rintro ⟨hc, -⟩
          exact hd hc
  · intro rs h hne
    rw [normalize_legacy p rs names c h hne]
    exact ⟨rfl, rfl⟩

theorem c8_backfill_total_witness :
    (normalize p62 [] "").reasons ≠ [] ∧ (normalize p62 [] "").signals ≠ [] :=
  ⟨((c8_backfill_total p62 [] "").1 rfl).1,
   ((c8_backfill_total p62 [] "").1 rfl).2.1⟩

/-! ## C7: page-break policy -/

/-- A width function for the counterexample: every character 18 units wide,
independent of boldness and font size (a fixed-pitch measurement; every word
of the rendered text fits the A4 content width, so no word ever needs to be
split). -/
def cexWidth : WidthFn := fun _ _ s => 18 * (s.length : Int)

/-- A finding whose claim text is 200 words long: the claim block (App.tsx
lines 457-460) is written without any page-break check. -/
def cexFinding : Finding where
  authenticity_score := 50
  risk_level := "Medium"
  verdict := some "v"
  reasons := ["r"]
  signals := ["s"]
  category_scores := some (broadcastCats 50)
  filenames := ["a"]
  filename := none
  claim := some (joinSep " " (List.replicate 200 "a"))
  batch_size := none
  analysis_type := none

set_option maxRecDepth 40000 in
/-- C7 as stated is false: rendering `cexFinding` on A4 geometry draws body
text below `pageHeight - footerReserve` — the title, timestamp, file and
claim blocks are written without any page-break check, so a long claim
overflows the first page. -/
theorem c7_counterexample :
    ((renderReport a4Config cexFinding cexWidth "t").any fun pg =>
        pg.any fun i =>
          !i.footerStamp
            && decide (a4Config.pageHeight - a4Config.footerHeight < i.y)) = true := by
  decide

/-- C7 amended: the `checkPageBreak` guard — used before the score, verdict,
category, reasons and signals blocks, but not before the header blocks —
starts a new page (cursor reset to the margin, current page archived)
exactly when `cursorY + requiredSpace > pageHeight - footerReserve`, leaves
the state untouched otherwise, and after the guard a block that fits an
empty page fits the remaining space. -/
theorem c7_pagebreak :
    (∀ (cfg : RConfig) (st : RState) (req : Int),
        ((checkPageBreak cfg req st).2 = true
           ↔ cfg.pageHeight - cfg.footerHeight < st.yPos + req)
        ∧ ((checkPageBreak cfg req st).2 = true →
             (checkPageBreak cfg req st).1.yPos = cfg.margin
             ∧ (checkPageBreak cfg req st).1.prevPages = st.prevPages ++ [st.cur]
             ∧ (checkPageBreak cfg req st).1.cur = [])
        ∧ ((checkPageBreak cfg req st).2 = false → (checkPageBreak cfg req st).1 = st))
    ∧ (∀ (cfg : RConfig) (st : RState) (req : Int),
        cfg.margin + req ≤ cfg.pageHeight - cfg.footerHeight →
        (checkPageBreak cfg req st).1.yPos + req ≤ cfg.pageHeight - cfg.footerHeight) := by
  constructor
  · intro cfg st req
    unfold checkPageBreak
    split
    · rename_i hlt
      exact ⟨⟨fun _ => hlt, fun _ => rfl⟩, fun _ => ⟨rfl, rfl, rfl⟩,
        fun hfalse => Bool.noConfusion hfalse⟩
    · rename_i hge
      exact ⟨⟨fun htrue => Bool.noConfusion htrue, fun hlt => absurd hlt hge⟩,
        fun htrue => Bool.noConfusion htrue, fun _ => rfl⟩
  · intro cfg st req hfit
    unfold checkPageBreak
    split
    · rename_i hlt
      simpa using hfit
    · rename_i hge
      simpa using le_of_not_lt hge

theorem c7_pagebreak_witness :
    (checkPageBreak a4Config 15 ⟨[], [], 280, 11⟩).1.yPos + 15
      ≤ a4Config.pageHeight - a4Config.footerHeight :=
  c7_pagebreak.2 a4Config ⟨[], [], 280, 11⟩ 15 (by decide)

/-! ## C9: footer stamping

The body layout never emits a footer-stamp instruction; the stamping pass
appends exactly one footer to every produced page. -/

/-- No instruction of the page is a footer stamp. -/
def cleanPage (pg : List Instr) : Prop := ∀ i ∈ pg, i.footerStamp = false

/-- No page of the state carries a footer stamp. -/
def cleanState (st : RState) : Prop :=
  (∀ pg ∈ st.prevPages, cleanPage pg) ∧ cleanPage st.cur

lemma cleanState_write (t : String) (x y : Int) (b c : Bool) {st : RState}
    (h : cleanState st) : cleanState (st.write t x y b c) := by
  refine ⟨h.1, ?_⟩
  intro i hi
  rcases List.mem_append.mp hi with hi | hi
  · exact h.2 i hi
  · rw [List.mem_singleton.mp hi]

lemma cleanState_checkPageBreak (cfg : RConfig) (req : Int) {st : RState}
    (h : cleanState st) : cleanState (checkPageBreak cfg req st).1 := by
  unfold checkPageBreak
  split
  · refine ⟨?_, ?_⟩
    · intro pg hpg
      rcases List.mem_append.mp hpg with hpg | hpg
      · exact h.1 pg hpg
      · rw [List.mem_singleton.mp hpg]
        exact h.2
    · intro i hi
      exact absurd hi (List.not_mem_nil i)
  · exact h

lemma cleanState_drawLinesAux (x adv : Int) :
    ∀ (ls : List String) (y : Int) {st : RState}, cleanState st →
      cleanState (drawLinesAux x adv ls y st) := by
  intro ls
  induction ls with
  | nil => intro y st h; exact h
  | cons l ls ih => intro y st h; exact ih _ (cleanState_write _ _ _ _ _ h)

lemma cleanState_drawTextLines (lines : List String) (x adv : Int) {st : RState}
    (h : cleanState st) : cleanState (drawTextLines st lines x adv) :=
  cleanState_drawLinesAux x adv lines st.yPos h

lemma cleanState_rtbAux (wf : WidthFn) (fs x maxWidth : Int) :
    ∀ (parts : List TextPart) {st : RState} (cx cy : Int), cleanState st →
      cleanState (rtbAux wf fs x maxWidth parts st cx cy).1 := by
  intro parts
  induction parts with
  | nil => intro st cx cy h; exact h
  | cons part rest ih => intro st cx cy h; exact ih _ _ (cleanState_write _ _ _ _ _ h)

lemma cleanState_renderTextWithBold (wf : WidthFn) (text : String)
    (x y maxWidth : Int) {st : RState} (h : cleanState st) :
    cleanState (renderTextWithBold wf text x y maxWidth st).1 :=
  cleanState_rtbAux wf st.fontSize x maxWidth (highlightRiskyWords text) x y h

lemma cleanState_rwlAux (wf : WidthFn) (x maxWidth : Int) :
    ∀ (ls : List String) {st : RState} (y : Int), cleanState st →
      cleanState (rwlAux wf x maxWidth ls st y).1 := by
  intro ls
  induction ls with
  | nil => intro st y h; exact h
  | cons l ls ih =>
    intro st y h
    exact ih _ (cleanState_renderTextWithBold wf l x y maxWidth h)

lemma cleanState_continuedMarker (cfg : RConfig) {cb : RState × Bool}
    (h : cleanState cb.1) : cleanState (continuedMarker cfg cb) := by
  unfold continuedMarker
  split
  · exact cleanState_write _ _ _ _ _ h
  · exact h

lemma cleanState_renderReason (wf : WidthFn) (cfg : RConfig) (mcw : Int)
    {st : RState} (idx : Nat) (reason : String) (h : cleanState st) :
    cleanState (renderReason wf cfg mcw st idx reason) :=
  cleanState_rwlAux wf _ _ _ _
    (cleanState_continuedMarker cfg (cleanState_checkPageBreak cfg _ h))

lemma cleanState_renderReasonsAux (wf : WidthFn) (cfg : RConfig) (mcw : Int) :
    ∀ (rs : List String) (i : Nat) {st : RState}, cleanState st →
      cleanState (renderReasonsAux wf cfg mcw i rs st) := by
  intro rs
  induction rs with
  | nil => intro i st h; exact h
  | cons r rs ih =>
    intro i st h
    exact ih _ (cleanState_renderReason wf cfg mcw i r h)

lemma cleanState_renderSignal (wf : WidthFn) (cfg : RConfig) (mcw : Int)
    {st : RState} (signal : String) (h : cleanState st) :
    cleanState (renderSignal wf cfg mcw st signal) :=
  cleanState_rwlAux wf _ _ _ _
    (cleanState_continuedMarker cfg (cleanState_checkPageBreak cfg _ h))

lemma cleanState_renderSignalsAux (wf : WidthFn) (cfg : RConfig) (mcw : Int) :
    ∀ (ss : List String) {st : RState}, cleanState st →
      cleanState (renderSignalsAux wf cfg mcw ss st) := by
  intro ss
  induction ss with
  | nil => intro st h; exact h
  | cons s ss ih =>
    intro st h
    exact ih (cleanState_renderSignal wf cfg mcw s h)

lemma cleanState_writeCatLines (m : Int) :
    ∀ (ps : List (String × Int)) {st : RState}, cleanState st →
      cleanState (writeCatLines m ps st) := by
  intro ps
  induction ps with
  | nil => intro st h; exact h
  | cons p ps ih => intro st h; exact ih (cleanState_write _ _ _ _ _ h)

lemma cleanState_stepTitle (cfg : RConfig) (wf : WidthFn) {st : RState}
    (h : cleanState st) : cleanState (stepTitle cfg wf st) :=
  cleanState_drawTextLines _ _ _ h

lemma cleanState_stepTimestamp (cfg : RConfig) (now : String) {st : RState}
    (h : cleanState st) : cleanState (stepTimestamp cfg now st) :=
  cleanState_write _ _ _ _ _ h

lemma cleanState_stepFileClaim (cfg : RConfig) (wf : WidthFn) (f : Finding)
    {st : RState} (h : cleanState st) : cleanState (stepFileClaim cfg wf f st) :=
  cleanState_drawTextLines _ _ _ (cleanState_drawTextLines _ _ _ h)

lemma cleanState_stepScore (cfg : RConfig) (f : Finding) {st : RState}
    (h : cleanState st) : cleanState (stepScore cfg f st) :=
  cleanState_write _ _ _ _ _
    (cleanState_write _ _ _ _ _ (cleanState_checkPageBreak cfg 15 h))

lemma cleanState_stepVerdict (cfg : RConfig) (wf : WidthFn) (f : Finding)
    {st : RState} (h : cleanState st) : cleanState (stepVerdict cfg wf f st) :=
  cleanState_drawTextLines _ _ _ (cleanState_checkPageBreak cfg 20 h)

lemma cleanState_stepCats (cfg : RConfig) (f : Finding) {st : RState}
    (h : cleanState st) : cleanState (stepCats cfg f st) := by
  unfold stepCats
  cases f.category_scores with
  | none => exact h
  | some cs =>
    exact cleanState_writeCatLines _ _
      (cleanState_write _ _ _ _ _ (cleanState_checkPageBreak cfg 50 h))

lemma cleanState_stepReasons (cfg : RConfig) (wf : WidthFn) (f : Finding)
    {st : RState} (h : cleanState st) : cleanState (stepReasons cfg wf f st) :=
  cleanState_renderReasonsAux wf cfg _ f.reasons 0
    (cleanState_write _ _ _ _ _ (cleanState_checkPageBreak cfg 20 h))

lemma cleanState_stepSignals (cfg : RConfig) (wf : WidthFn) (f : Finding)
    {st : RState} (h : cleanState st) : cleanState (stepSignals cfg wf f st) :=
  cleanState_renderSignalsAux wf cfg _ f.signals
    (cleanState_write _ _ _ _ _ (cleanState_checkPageBreak cfg 20 h))

lemma cleanState_layoutBody (cfg : RConfig) (f : Finding) (wf : WidthFn)
    (now : String) : cleanState (layoutBody cfg f wf now) := by
  have h0 : cleanState (⟨[], [], cfg.margin, 16⟩ : RState) := by
    refine ⟨?_, ?_⟩
    · intro pg hpg
      exact absurd hpg (List.not_mem_nil pg)
    · intro i hi
      exact absurd hi (List.not_mem_nil i)
  exact cleanState_stepSignals cfg wf f
    (cleanState_stepReasons cfg wf f
      (cleanState_stepCats cfg f
        (cleanState_stepVerdict cfg wf f
          (cleanState_stepScore cfg f
            (cleanState_stepFileClaim cfg wf f
              (cleanState_stepTimestamp cfg now
                (cleanState_stepTitle cfg wf h0)))))))

/-- C9: every page of the rendered output carries exactly one footer stamp
— the filtered stamp list of each page is exactly the one `footerInstr` —
all stamps are the identical centered string, and the stamp of each page is its
final instruction (the stamping pass runs after body layout completes). -/
theorem c9_footer :
    ∀ (cfg : RConfig) (f : Finding) (wf : WidthFn) (now : String),
      ((renderReport cfg f wf now).Forall fun pg =>
          pg.filter (fun i => i.footerStamp) = [footerInstr cfg]
          ∧ pg.getLast? = some (footerInstr cfg))
      ∧ (footerInstr cfg).centered = true
      ∧ (footerInstr cfg).text = footerText := by
  intro cfg f wf now
  refine ⟨?_, rfl, rfl⟩
  rw [List.forall_iff_forall_mem]
  intro pg hpg
  unfold renderReport at hpg
  obtain ⟨pg0, hpg0, rfl⟩ := List.mem_map.mp hpg
  have hclean : cleanPage pg0 := by
    have hl := cleanState_layoutBody cfg f wf now
    unfold RState.pagesOut at hpg0
    rcases List.mem_append.mp hpg0 with h0 | h0
    · exact hl.1 pg0 h0
    · rw [List.mem_singleton.mp h0]
      exact hl.2
  constructor
  · rw [List.filter_append]
    have h1 : pg0.filter (fun i => i.footerStamp) = [] := by
      rw [List.filter_eq_nil_iff]
      intro i hi
      rw [hclean i hi]
      exact Bool.false_ne_true
    rw [h1]
    rfl
  · exact List.getLast?_concat _

/-! ## C10: the emphasis pass -/

lemma startsWithList_iff (n : List Char) :
    ∀ l, startsWithList l n = true ↔ ∃ rest, n ++ rest = l := by
  induction n with
  | nil =>
    intro l
    simp [startsWithList]
  | cons d ds ih =>
    intro l
    cases l with
    | nil => simp [startsWithList]
    | cons c cs =>
      rw [show startsWithList (c :: cs) (d :: ds)
            = (c == d && startsWithList cs ds) from rfl,
        Bool.and_eq_true, beq_iff_eq, ih]
      constructor
      · rintro ⟨rfl, rest, rfl⟩
        exact ⟨rest, rfl⟩
      · rintro ⟨rest, heq⟩
        rw [List.cons_append] at heq
        injection heq with h1 h2
        exact ⟨h1.symm, rest, h2⟩

lemma containsSub_iff (needle : List Char) :
    ∀ hay, containsSub hay needle = true
      ↔ ∃ pre post, pre ++ needle ++ post = hay := by
  intro hay
  induction hay with
  | nil =>
    rw [show containsSub [] needle = needle.isEmpty from rfl, List.isEmpty_iff]
    constructor
    · rintro rfl
      exact ⟨[], [], rfl⟩
    · rintro ⟨pre, post, h⟩
      rw [List.append_assoc] at h
      rcases List.append_eq_nil.mp h with ⟨-, h2⟩
      exact (List.append_eq_nil.mp h2).1
  | cons c t ih =>
    rw [show containsSub (c :: t) needle
          = (startsWithList (c :: t) needle || containsSub t needle) from rfl,
      Bool.or_eq_true, startsWithList_iff needle, ih]
    constructor
    · rintro (⟨rest, hrest⟩ | ⟨pre, post, hpp⟩)
      · exact ⟨[], rest, by simpa using hrest⟩
      · exact ⟨c :: pre, post, by simpa using congrArg (List.cons c) hpp⟩
    · rintro ⟨pre, post, hpp⟩
      cases pre with
      | nil =>
        left
        exact ⟨post, by simpa using hpp⟩
      | cons c' pre' =>
        rw [List.cons_append, List.cons_append] at hpp
        injection hpp with h1 h2
        right
        exact ⟨pre', post, by simpa using h2⟩

lemma strToLower_riskyWords : ∀ r ∈ riskyWords, strToLower r = r := by decide

/-- C10: a piece of the split text is flagged bold exactly when its
lowercased form with all of `.,!?;:` removed contains some entry of the
risky-word list as a substring (substring containment, not whole-word
equality): consequently "terrors" — which merely contains "error" — is
emphasized, while "authentic" is not. -/
theorem c10_emphasis :
    (∀ text : String,
        (highlightRiskyWords text).Forall fun part =>
          (part.bold = true
            ↔ ∃ r ∈ riskyWords, ∃ pre post,
                pre ++ r.toList ++ post = cleanWord part.text))
    ∧ highlightRiskyWords "terrors" = [⟨"terrors", true⟩]
    ∧ highlightRiskyWords "authentic" = [⟨"authentic", false⟩] := by
  refine ⟨?_, by decide, by decide⟩
  intro text
  rw [List.forall_iff_forall_mem]
  intro part hpart
  unfold highlightRiskyWords at hpart
  obtain ⟨w, hw, rfl⟩ := List.mem_map.mp hpart
  show (riskyWords.any fun r => containsSub (cleanWord w) (strToLower r).toList) = true ↔ _
  rw [List.any_eq_true]
  constructor
  · rintro ⟨r, hr, hc⟩
    refine ⟨r, hr, ?_⟩
    rw [← strToLower_riskyWords r hr]
    exact (containsSub_iff _ _).mp hc
  · rintro ⟨r, hr, pre, post, hpp⟩
    refine ⟨r, hr, ?_⟩
    rw [strToLower_riskyWords r hr]
    exact (containsSub_iff _ _).mpr ⟨pre, post, hpp⟩

theorem c10_emphasis_witness :
    (highlightRiskyWords "terrors").Forall fun part =>
      (part.bold = true
        ↔ ∃ r ∈ riskyWords, ∃ pre post,
            pre ++ r.toList ++ post = cleanWord part.text) :=
  c10_emphasis.1 "terrors"

end VeriWeave
